import Mathlib

/-!
Shallow embedding of the mbed bring-up diagnostic (src/main.cpp): the
walking-ones RAM verifier checkRam, the largest-allocation probe
mallocLargestSize, and the heap-chaining prober checkHeapSize.

Machine words are 32-bit; arithmetic is Nat with explicit reduction
mod 2 ^ 32 where uint32 overflow matters.  Memory is a function from
word offsets (relative to the tested pointer) to stored values; reads
go through a fault transform standing for possibly faulty cells, so a
fault-free cell satisfies fault i v = v.  malloc is modelled as an
oracle.  The C loops are translated as structural recursion on the
number of words left to visit, so every definition evaluates on
concrete inputs.
-/

/-- sizeof uint32 and sizeof a pointer on the Cortex-M target. -/
def WORD_BYTES : Nat := 4

/-- SYSTEM_RAM_SIZE_BYTES compile-time constant of main.cpp. -/
def SYSTEM_RAM_SIZE_BYTES : Nat := 20480

/-- One step of the walking-ones generator: value <<= 1 on uint32,
then, when the shift overflowed to zero, reset to 1 (lines 203-207,
214-218, 228-232, 239-243 of main.cpp). -/
def shiftStep (v : Nat) : Nat :=
  if v * 2 % 2 ^ 32 = 0 then 1 else v * 2 % 2 ^ 32

/-- The walking value held in the local variable value when the cursor
is about to visit word i (value starts at 1 before each pass). -/
def valueAt : Nat → Nat
  | 0 => 1
  | i + 1 => shiftStep (valueAt i)

/-- Bitwise complement on uint32 (the ~value of line 227). -/
def compl32 (v : Nat) : Nat := 2 ^ 32 - 1 - v % 2 ^ 32

/-- Pointwise update of word-indexed memory. -/
def upd (mem : Nat → Nat) (i v : Nat) : Nat → Nat :=
  fun j => if j = i then v else mem j

/-- Walking-ones write pass of checkRam (lines 199-208): write the
current value at the word under the cursor, shift, advance; fuel is
the number of words still to visit. -/
def writeWalk : Nat → Nat → Nat → (Nat → Nat) → (Nat → Nat)
  | _, _, 0, mem => mem
  | v, i, fuel + 1, mem => writeWalk (shiftStep v) (i + 1) fuel (upd mem i v)

/-- Walking-ones read pass of checkRam (lines 211-219): recompute the
sequence and advance the cursor; the loop body never dereferences the
cursor, exactly as in the source, so this function takes no memory
argument at all.  Returns the final cursor position. -/
def readWalk : Nat → Nat → Nat → Nat
  | _, i, 0 => i
  | v, i, fuel + 1 =>
    have _ := v
    readWalk (shiftStep v) (i + 1) fuel

/-- Inverted walking-ones write pass (lines 224-233): writes the
uint32 complement of the walking value at each word. -/
def writeWalkInv : Nat → Nat → Nat → (Nat → Nat) → (Nat → Nat)
  | _, _, 0, mem => mem
  | v, i, fuel + 1, mem => writeWalkInv (shiftStep v) (i + 1) fuel (upd mem i (compl32 v))

/-- Inverted walking-ones read pass (lines 236-244): advance while the
word read back equals the complement of the walking value, stop at the
first mismatch; returns the final cursor position. -/
def readWalkInv (read : Nat → Nat) : Nat → Nat → Nat → Nat
  | _, i, 0 => i
  | v, i, fuel + 1 =>
    if read i = compl32 v then readWalkInv read (shiftStep v) (i + 1) fuel else i

/-- A printf event of checkRam: the range header of line 196 or the
failure line of line 249. -/
inductive OutEvent where
  | header (fromAddr toAddr : Nat)
  | failure (addr contents : Nat)
deriving DecidableEq, Repr

/-- Result of checkRam: final stored memory, final cursor (as a word
offset), the printed lines in order, and whether the inverted passes
(the branch at line 221) were executed. -/
structure RamResult where
  mem : Nat → Nat
  cursor : Nat
  out : List OutEvent
  invertedDone : Bool

/-- checkRam of main.cpp (lines 189-252).  pMem is the start address
(0 standing for NULL), sizeBytes the byte count; mem is the initial
stored contents of the range, word-indexed from pMem; fault is the
read transform of the cells.  The header prints pMem and
pMem + sizeBytes / 4, exactly as the source computes it on line 196;
the failure line prints the byte address of the cursor and the value
read there. -/
def checkRam (pMem sizeBytes : Nat) (mem : Nat → Nat) (fault : Nat → Nat → Nat) : RamResult :=
  if pMem = 0 then ⟨mem, 0, [], false⟩
  else
    let n := sizeBytes / 4
    let mem1 := writeWalk 1 0 n mem
    let c1 := readWalk 1 0 n
    let step2 : (Nat → Nat) × Nat × Bool :=
      if n ≤ c1 then
        let mem2 := writeWalkInv 1 0 n mem1
        (mem2, readWalkInv (fun i => fault i (mem2 i)) 1 0 n, true)
      else (mem1, c1, false)
    let out :=
      if step2.2.1 < n then
        [OutEvent.header pMem (pMem + n),
         OutEvent.failure (pMem + 4 * step2.2.1) (fault step2.2.1 (step2.1 step2.2.1))]
      else [OutEvent.header pMem (pMem + n)]
    ⟨step2.1, step2.2.1, out, step2.2.2⟩

-- ----------------------------------------------------------------
-- Walking-pattern lemmas
-- ----------------------------------------------------------------

theorem valueAt_eq (i : Nat) : valueAt i = 2 ^ (i % 32) := by
  induction i with
  | zero => rfl
  | succ i ih =>
    rw [valueAt, ih, shiftStep]
    by_cases h : i % 32 = 31
    · have h1 : (i + 1) % 32 = 0 := by omega
      rw [h, h1]
      norm_num
    · have h1 : i % 32 < 31 := Nat.lt_of_le_of_ne (by omega) h
      have h2 : (i + 1) % 32 = i % 32 + 1 := by omega
      have h3 : 2 ^ (i % 32) * 2 = 2 ^ (i % 32 + 1) := by
        rw [Nat.pow_succ]
      have h4 : 2 ^ (i % 32 + 1) < 2 ^ 32 :=
        Nat.pow_lt_pow_right (by norm_num) (by omega)
      have h5 : 2 ^ (i % 32) * 2 % 2 ^ 32 = 2 ^ (i % 32 + 1) := by
        rw [h3, Nat.mod_eq_of_lt h4]
      have h6 : 2 ^ (i % 32 + 1) ≠ 0 := (Nat.pow_pos (by norm_num)).ne'
      rw [h5, if_neg h6, h2]

theorem compl32_valueAt_ne_zero (i : Nat) : compl32 (valueAt i) ≠ 0 := by
  rw [valueAt_eq, compl32]
  have h1 : 2 ^ (i % 32) ≤ 2 ^ 31 :=
    Nat.pow_le_pow_right (by norm_num) (by omega)
  have h2 : (2 : Nat) ^ 31 < 2 ^ 32 := by norm_num
  have h3 : 2 ^ (i % 32) % 2 ^ 32 = 2 ^ (i % 32) :=
    Nat.mod_eq_of_lt (Nat.lt_of_le_of_lt h1 h2)
  rw [h3]
  omega

-- ----------------------------------------------------------------
-- Pass characterisations
-- ----------------------------------------------------------------

theorem writeWalk_eq : ∀ (fuel i : Nat) (mem : Nat → Nat) (j : Nat),
    writeWalk (valueAt i) i fuel mem j =
      if i ≤ j ∧ j < i + fuel then valueAt j else mem j := by
  intro fuel
  induction fuel with
  | zero =>
    intro i mem j
    rw [writeWalk, if_neg (by omega)]
  | succ fuel ih =>
    intro i mem j
    show writeWalk (shiftStep (valueAt i)) (i + 1) fuel (upd mem i (valueAt i)) j = _
    have hs : shiftStep (valueAt i) = valueAt (i + 1) := rfl
    rw [hs, ih]
    by_cases h1 : i + 1 ≤ j ∧ j < i + 1 + fuel
    · rw [if_pos h1, if_pos (by omega)]
    · rw [if_neg h1, upd]
      by_cases h2 : j = i
      · simp only [if_pos h2, h2]
        rw [if_pos (show i ≤ i ∧ i < i + (fuel + 1) by omega)]
        simp
      · simp only [if_neg h2]
        rw [if_neg (show ¬(i ≤ j ∧ j < i + (fuel + 1)) by omega)]

theorem writeWalkInv_eq : ∀ (fuel i : Nat) (mem : Nat → Nat) (j : Nat),
    writeWalkInv (valueAt i) i fuel mem j =
      if i ≤ j ∧ j < i + fuel then compl32 (valueAt j) else mem j := by
  intro fuel
  induction fuel with
  | zero =>
    intro i mem j
    rw [writeWalkInv, if_neg (by omega)]
  | succ fuel ih =>
    intro i mem j
    show writeWalkInv (shiftStep (valueAt i)) (i + 1) fuel
      (upd mem i (compl32 (valueAt i))) j = _
    have hs : shiftStep (valueAt i) = valueAt (i + 1) := rfl
    rw [hs, ih]
    by_cases h1 : i + 1 ≤ j ∧ j < i + 1 + fuel
    · rw [if_pos h1, if_pos (by omega)]
    · rw [if_neg h1, upd]
      by_cases h2 : j = i
      · simp only [if_pos h2, h2]
        rw [if_pos (show i ≤ i ∧ i < i + (fuel + 1) by omega)]
        simp
      · simp only [if_neg h2]
        rw [if_neg (show ¬(i ≤ j ∧ j < i + (fuel + 1)) by omega)]

theorem readWalk_eq : ∀ (fuel v i : Nat), readWalk v i fuel = i + fuel := by
  intro fuel
  induction fuel with
  | zero => intro v i; rfl
  | succ fuel ih =>
    intro v i
    show readWalk (shiftStep v) (i + 1) fuel = _
    rw [ih]
    omega

theorem readWalkInv_all (read : Nat → Nat) : ∀ (fuel i : Nat),
    (∀ j, i ≤ j → j < i + fuel → read j = compl32 (valueAt j)) →
    readWalkInv read (valueAt i) i fuel = i + fuel := by
  intro fuel
  induction fuel with
  | zero => intro i _; rfl
  | succ fuel ih =>
    intro i h
    rw [readWalkInv, if_pos (h i (by omega) (by omega))]
    have hs : shiftStep (valueAt i) = valueAt (i + 1) := rfl
    rw [hs, ih (i + 1) (fun j hj1 hj2 => h j (by omega) (by omega))]
    omega

theorem readWalkInv_stop (read : Nat → Nat) : ∀ (fuel i k : Nat),
    i ≤ k → k < i + fuel →
    (∀ j, i ≤ j → j < k → read j = compl32 (valueAt j)) →
    read k ≠ compl32 (valueAt k) →
    readWalkInv read (valueAt i) i fuel = k := by
  intro fuel
  induction fuel with
  | zero => intro i k h1 h2; omega
  | succ fuel ih =>
    intro i k h1 h2 h3 h4
    by_cases hik : i = k
    · rw [readWalkInv, if_neg (by rw [hik]; exact h4)]
      exact hik
    · rw [readWalkInv, if_pos (h3 i (by omega) (by omega))]
      have hs : shiftStep (valueAt i) = valueAt (i + 1) := rfl
      rw [hs]
      exact ih (i + 1) k (by omega) (by omega)
        (fun j hj1 hj2 => h3 j (by omega) hj2) h4

-- ----------------------------------------------------------------
-- checkRam unfolding on a non-null pointer
-- ----------------------------------------------------------------

/-- Final stored memory of checkRam on a non-null range: the inverted
write pass applied after the walking-ones write pass. -/
def ramFinalMem (sizeBytes : Nat) (mem : Nat → Nat) : Nat → Nat :=
  writeWalkInv 1 0 (sizeBytes / 4) (writeWalk 1 0 (sizeBytes / 4) mem)

/-- What the inverted read pass reads at word i. -/
def ramRead (sizeBytes : Nat) (mem : Nat → Nat) (fault : Nat → Nat → Nat) : Nat → Nat :=
  fun i => fault i (ramFinalMem sizeBytes mem i)

/-- Final cursor of checkRam on a non-null range. -/
def ramCursor (sizeBytes : Nat) (mem : Nat → Nat) (fault : Nat → Nat → Nat) : Nat :=
  readWalkInv (ramRead sizeBytes mem fault) 1 0 (sizeBytes / 4)

theorem checkRam_pos (pMem sizeBytes : Nat) (mem : Nat → Nat) (fault : Nat → Nat → Nat)
    (h : pMem ≠ 0) :
    checkRam pMem sizeBytes mem fault =
      ⟨ramFinalMem sizeBytes mem,
       ramCursor sizeBytes mem fault,
       if ramCursor sizeBytes mem fault < sizeBytes / 4 then
         [OutEvent.header pMem (pMem + sizeBytes / 4),
          OutEvent.failure (pMem + 4 * ramCursor sizeBytes mem fault)
            (ramRead sizeBytes mem fault (ramCursor sizeBytes mem fault))]
       else [OutEvent.header pMem (pMem + sizeBytes / 4)],
       true⟩ := by
  unfold checkRam
  rw [if_neg h]
  have hc1 : sizeBytes / 4 ≤ readWalk 1 0 (sizeBytes / 4) := by
    rw [readWalk_eq]
    omega
  simp only [if_pos hc1]
  rfl

theorem checkRam_mem (pMem sizeBytes : Nat) (mem : Nat → Nat) (fault : Nat → Nat → Nat)
    (h : pMem ≠ 0) (j : Nat) :
    (checkRam pMem sizeBytes mem fault).mem j =
      if j < sizeBytes / 4 then compl32 (valueAt j) else mem j := by
  rw [checkRam_pos _ _ _ _ h]
  show ramFinalMem sizeBytes mem j = _
  have h0 : (1 : Nat) = valueAt 0 := rfl
  rw [ramFinalMem, h0, writeWalkInv_eq, writeWalk_eq]
  by_cases hj : j < sizeBytes / 4
  · rw [if_pos ⟨Nat.zero_le j, by omega⟩, if_pos hj]
  · rw [if_neg (by omega), if_neg (by omega), if_neg hj]

theorem ramFinalMem_eq (sizeBytes : Nat) (mem : Nat → Nat) (j : Nat) (hj : j < sizeBytes / 4) :
    ramFinalMem sizeBytes mem j = compl32 (valueAt j) := by
  have h0 : (1 : Nat) = valueAt 0 := rfl
  rw [ramFinalMem, h0, writeWalkInv_eq, if_pos ⟨Nat.zero_le j, by omega⟩]

-- ----------------------------------------------------------------
-- Claim theorems about checkRam
-- ----------------------------------------------------------------

/-- Claim C1: on a non-null range the walking-ones read pass of
checkRam only re-derives the pattern and advances the cursor across
the whole range; it performs no comparison at all (readWalk takes no
memory argument, mirroring the source loop which never dereferences
its cursor), so for every memory contents and every fault pattern the
pass ends at the end of the range and the inverted walking-ones write
pass is always performed. -/
theorem checkRam_readPass_blind (pMem sizeBytes : Nat) (mem : Nat → Nat)
    (fault : Nat → Nat → Nat) (h : pMem ≠ 0) :
    readWalk 1 0 (sizeBytes / 4) = sizeBytes / 4 ∧
    (checkRam pMem sizeBytes mem fault).invertedDone = true := by
  constructor
  · rw [readWalk_eq]
    omega
  · rw [checkRam_pos _ _ _ _ h]

theorem checkRam_readPass_blind_witness :
    (4 : Nat) ≠ 0 ∧
    (readWalk 1 0 (64 / 4) = 64 / 4 ∧
      (checkRam 4 64 (fun _ => 0) (fun _ v => v)).invertedDone = true) :=
  ⟨by decide, checkRam_readPass_blind 4 64 (fun _ => 0) (fun _ v => v) (by decide)⟩

/-- Claim C2: on a non-null fault-free range (every read returns the
last value written) checkRam ends with the cursor at the end of the
range, prints only the header line and no failure line, and leaves
every word i of the range holding the complement of 1 shifted left by
i mod 32. -/
theorem checkRam_faultFree (pMem sizeBytes : Nat) (mem : Nat → Nat)
    (fault : Nat → Nat → Nat) (h : pMem ≠ 0) (hf : ∀ i v, fault i v = v) :
    (checkRam pMem sizeBytes mem fault).cursor = sizeBytes / 4 ∧
    (checkRam pMem sizeBytes mem fault).out = [OutEvent.header pMem (pMem + sizeBytes / 4)] ∧
    ∀ i, i < sizeBytes / 4 →
      (checkRam pMem sizeBytes mem fault).mem i = compl32 (2 ^ (i % 32)) := by
  have h0 : (1 : Nat) = valueAt 0 := rfl
  have hread : ∀ j, 0 ≤ j → j < 0 + sizeBytes / 4 →
      ramRead sizeBytes mem fault j = compl32 (valueAt j) := by
    intro j h1 h2
    rw [ramRead, hf, ramFinalMem_eq _ _ _ (by omega)]
  have hcur : ramCursor sizeBytes mem fault = sizeBytes / 4 := by
    rw [ramCursor, h0, readWalkInv_all _ _ _ hread]
    omega
  refine ⟨?_, ?_, ?_⟩
  · rw [checkRam_pos _ _ _ _ h]
    exact hcur
  · rw [checkRam_pos _ _ _ _ h]
    show (if ramCursor sizeBytes mem fault < sizeBytes / 4 then _ else _) = _
    rw [hcur, if_neg (lt_irrefl _)]
  · intro i hi
    rw [checkRam_mem _ _ _ _ h, if_pos hi, valueAt_eq]

theorem checkRam_faultFree_witness :
    (4 : Nat) ≠ 0 ∧
    ((checkRam 4 64 (fun _ => 0) (fun _ v => v)).cursor = 64 / 4 ∧
      (checkRam 4 64 (fun _ => 0) (fun _ v => v)).out = [OutEvent.header 4 (4 + 64 / 4)] ∧
      ∀ i, i < 64 / 4 →
        (checkRam 4 64 (fun _ => 0) (fun _ v => v)).mem i = compl32 (2 ^ (i % 32))) :=
  ⟨by decide, checkRam_faultFree 4 64 (fun _ => 0) (fun _ v => v) (by decide) (fun i v => rfl)⟩

/-- Counterexample to claim C6: a zero size with a non-null start
address is not a silent no-op — checkRam still prints the range
header line (line 196 of main.cpp runs before any size check), so
output is produced. -/
theorem checkRam_zeroSize_prints :
    (checkRam 4 0 (fun _ => 0) (fun _ v => v)).out = [OutEvent.header 4 4] ∧
    (checkRam 4 0 (fun _ => 0) (fun _ v => v)).out ≠ [] := by decide

/-- Claim C6 as amended: a null start address is a silent no-op (no
write, no output); a zero size with a non-null start address writes no
memory, runs to completion and prints no failure line, but does print
the range header line. -/
theorem checkRam_null_or_zero (sizeBytes : Nat) (mem : Nat → Nat) (fault : Nat → Nat → Nat) :
    checkRam 0 sizeBytes mem fault = ⟨mem, 0, [], false⟩ ∧
    ∀ pMem : Nat, pMem ≠ 0 →
      checkRam pMem 0 mem fault = ⟨mem, 0, [OutEvent.header pMem pMem], true⟩ := by
  constructor
  · rfl
  · intro pMem hp
    rw [checkRam_pos _ _ _ _ hp]
    rfl

theorem checkRam_null_or_zero_witness :
    (4 : Nat) ≠ 0 ∧
    checkRam 4 0 (fun _ => 0) (fun _ v => v) =
      ⟨(fun _ => 0), 0, [OutEvent.header 4 4], true⟩ :=
  ⟨by decide, (checkRam_null_or_zero 0 (fun _ => 0) (fun _ v => v)).2 4 (by decide)⟩

/-- Counterexample to claim C7: checkRam does not write every byte of
the range.  With sizeBytes = 6 only one whole word (bytes 0-3) is
visited, so the bytes at offsets 4 and 5 — inside the range — keep
whatever word 1 held before: two different prior contents both
survive. -/
theorem checkRam_trailing_bytes_kept :
    (4 : Nat) < 6 ∧
    (checkRam 4 6 (fun _ => 77) (fun _ v => v)).mem 1 = 77 ∧
    (checkRam 4 6 (fun _ => 99) (fun _ v => v)).mem 1 = 99 := by decide

/-- Claim C7 as amended: on a non-null range checkRam fully overwrites
every complete word of the range — word i (bytes 4 i to 4 i + 3, all
below 4 * (sizeBytes / 4) ≤ sizeBytes) ends up holding the inverted
walking pattern whatever it held before — while the bytes of an
incomplete final word, when sizeBytes is not a multiple of 4, are
preserved. -/
theorem checkRam_overwrites_words (pMem sizeBytes : Nat) (mem : Nat → Nat)
    (fault : Nat → Nat → Nat) (h : pMem ≠ 0) :
    (∀ i, i < sizeBytes / 4 →
      (checkRam pMem sizeBytes mem fault).mem i = compl32 (2 ^ (i % 32)) ∧
        4 * i + 3 < 4 * (sizeBytes / 4)) ∧
    ∀ i, sizeBytes / 4 ≤ i → (checkRam pMem sizeBytes mem fault).mem i = mem i := by
  constructor
  · intro i hi
    rw [checkRam_mem _ _ _ _ h, if_pos hi, valueAt_eq]
    exact ⟨rfl, by omega⟩
  · intro i hi
    rw [checkRam_mem _ _ _ _ h, if_neg (by omega)]

theorem checkRam_overwrites_words_witness :
    (4 : Nat) ≠ 0 ∧
    ((∀ i, i < 64 / 4 →
      (checkRam 4 64 (fun _ => 5) (fun _ v => v)).mem i = compl32 (2 ^ (i % 32)) ∧
        4 * i + 3 < 4 * (64 / 4)) ∧
      ∀ i, 64 / 4 ≤ i → (checkRam 4 64 (fun _ => 5) (fun _ v => v)).mem i = (fun _ => 5) i) :=
  ⟨by decide, checkRam_overwrites_words 4 64 (fun _ => 5) (fun _ v => v) (by decide)⟩

/-- Claim C8: checkRam is a total function returning an ordinary
result on every input and every memory contents — nothing in it
aborts, halts or signals the caller — and its only observable output
is print events: nothing when the pointer is null, otherwise the
header line followed, exactly when the final cursor stopped short of
the end of the range, by one failure line carrying the failing byte
address and the value actually read at that location. -/
theorem checkRam_only_prints (pMem sizeBytes : Nat) (mem : Nat → Nat)
    (fault : Nat → Nat → Nat) :
    (checkRam pMem sizeBytes mem fault).out =
      if pMem = 0 then ([] : List OutEvent)
      else
        OutEvent.header pMem (pMem + sizeBytes / 4) ::
          (if (checkRam pMem sizeBytes mem fault).cursor < sizeBytes / 4 then
            [OutEvent.failure (pMem + 4 * (checkRam pMem sizeBytes mem fault).cursor)
              (fault (checkRam pMem sizeBytes mem fault).cursor
                ((checkRam pMem sizeBytes mem fault).mem
                  (checkRam pMem sizeBytes mem fault).cursor))]
          else []) := by
  by_cases h : pMem = 0
  · rw [if_pos h, h]
    rfl
  · rw [if_neg h, checkRam_pos _ _ _ _ h]
    show (if ramCursor sizeBytes mem fault < sizeBytes / 4 then _ else _) = _
    by_cases hc : ramCursor sizeBytes mem fault < sizeBytes / 4
    · rw [if_pos hc, if_pos hc]
      rfl
    · rw [if_neg hc, if_neg hc]

/-- The read transform of a cell stuck at zero in word 8 of the range,
all other cells behaving normally. -/
def stuckZeroAt8 : Nat → Nat → Nat := fun i v => if i = 8 then 0 else v

/-- Claim C9: on a non-null range of at least nine words whose word at
offset 8 reads back as all-zero while every other word behaves, the
inverted read pass of checkRam stops exactly at offset 8 and the
failure line reports the byte address of that word and actual contents
0, while the expected value, the complement of the walking pattern at
offset 8, is nonzero. -/
theorem checkRam_stuckWord_detected (pMem sizeBytes : Nat) (mem : Nat → Nat)
    (h : pMem ≠ 0) (hn : 9 ≤ sizeBytes / 4) :
    (checkRam pMem sizeBytes mem stuckZeroAt8).cursor = 8 ∧
    (checkRam pMem sizeBytes mem stuckZeroAt8).out =
      [OutEvent.header pMem (pMem + sizeBytes / 4), OutEvent.failure (pMem + 4 * 8) 0] ∧
    compl32 (2 ^ (8 % 32)) ≠ 0 := by
  have h0 : (1 : Nat) = valueAt 0 := rfl
  have hmatch : ∀ j, 0 ≤ j → j < 8 →
      ramRead sizeBytes mem stuckZeroAt8 j = compl32 (valueAt j) := by
    intro j h1 h2
    rw [ramRead, stuckZeroAt8]
    rw [if_neg (by omega), ramFinalMem_eq _ _ _ (by omega)]
  have hmiss : ramRead sizeBytes mem stuckZeroAt8 8 ≠ compl32 (valueAt 8) := by
    rw [ramRead, stuckZeroAt8, if_pos rfl]
    exact (compl32_valueAt_ne_zero 8).symm
  have hcur : ramCursor sizeBytes mem stuckZeroAt8 = 8 := by
    rw [ramCursor, h0]
    exact readWalkInv_stop _ _ 0 8 (by omega) (by omega) hmatch hmiss
  have hval : ramRead sizeBytes mem stuckZeroAt8 8 = 0 := by
    rw [ramRead, stuckZeroAt8, if_pos rfl]
  refine ⟨?_, ?_, ?_⟩
  · rw [checkRam_pos _ _ _ _ h]
    exact hcur
  · rw [checkRam_pos _ _ _ _ h]
    show (if ramCursor sizeBytes mem stuckZeroAt8 < sizeBytes / 4 then _ else _) = _
    rw [hcur, if_pos (by omega), hval]
  · rw [← valueAt_eq]
    exact compl32_valueAt_ne_zero 8

theorem checkRam_stuckWord_witness :
    ((4 : Nat) ≠ 0 ∧ 9 ≤ 64 / 4) ∧
    ((checkRam 4 64 (fun _ => 0) stuckZeroAt8).cursor = 8 ∧
      (checkRam 4 64 (fun _ => 0) stuckZeroAt8).out =
        [OutEvent.header 4 (4 + 64 / 4), OutEvent.failure (4 + 4 * 8) 0] ∧
      compl32 (2 ^ (8 % 32)) ≠ 0) :=
  ⟨⟨by decide, by decide⟩,
    checkRam_stuckWord_detected 4 64 (fun _ => 0) (by decide) (by decide)⟩

-- ----------------------------------------------------------------
-- mallocLargestSize (lines 103-130 of main.cpp)
-- ----------------------------------------------------------------

/-- The (int32_t) cast of a size_t on the 32-bit target: values of
2 ^ 31 and above wrap to negative. -/
def toInt32 (s : Nat) : Int :=
  if s % 2 ^ 32 < 2 ^ 31 then (s % 2 ^ 32 : Nat) else (s % 2 ^ 32 : Nat) - 2 ^ 32

/-- The retry loop of mallocLargestSize (lines 112-119): try malloc at
the current signed size; on failure subtract sizeof uint32 and retry
while the size stays positive.  alloc is the malloc oracle, none
standing for NULL; fuel bounds the iterations and is chosen large
enough at the call site for the loop to always end through its own
guard. -/
def mallocLoop (alloc : Int → Option Nat) : Nat → Int → Option Nat × Int
  | 0, m => (none, m)
  | fuel + 1, m =>
    if 0 < m then
      match alloc m with
      | some p => (some p, m)
      | none => mallocLoop alloc fuel (m - 4)
    else (none, m)

/-- mallocLargestSize of main.cpp (non-null pSizeBytes): returns the
block (none = NULL) and the value written back through pSizeBytes,
clamped to zero when the loop drove the signed size negative
(lines 121-126). -/
def mallocLargestSize (alloc : Int → Option Nat) (sizeBytes : Nat) : Option Nat × Nat :=
  let m0 := toInt32 sizeBytes
  let r := mallocLoop alloc (m0.toNat + 1) m0
  (r.1, (if r.2 < 0 then (0 : Int) else r.2).toNat)

theorem mallocLoop_some (alloc : Int → Option Nat) : ∀ (fuel : Nat) (m m2 : Int) (p : Nat),
    mallocLoop alloc fuel m = (some p, m2) →
    0 < m2 ∧ m2 ≤ m ∧ (m - m2) % 4 = 0 ∧ alloc m2 = some p := by
  intro fuel
  induction fuel with
  | zero =>
    intro m m2 p heq
    simp [mallocLoop] at heq
  | succ fuel ih =>
    intro m m2 p heq
    rw [mallocLoop] at heq
    by_cases hm : 0 < m
    · rw [if_pos hm] at heq
      cases halloc : alloc m with
      | some q =>
        rw [halloc] at heq
        injection heq with hp hm2
        injection hp with hp
        subst hm2
        refine ⟨hm, le_refl m, by omega, ?_⟩
        rw [halloc, hp]
      | none =>
        rw [halloc] at heq
        obtain ⟨h1, h2, h3, h4⟩ := ih (m - 4) m2 p heq
        exact ⟨h1, by omega, by omega, h4⟩
    · rw [if_neg hm] at heq
      injection heq with hp _
      exact absurd hp (by simp)

theorem mallocLoop_none (alloc : Int → Option Nat) : ∀ (fuel : Nat) (m m2 : Int),
    m ≤ 4 * fuel →
    mallocLoop alloc fuel m = (none, m2) →
    m2 ≤ 0 ∧ ∀ k : Int, 0 < k → k ≤ m → (m - k) % 4 = 0 → alloc k = none := by
  intro fuel
  induction fuel with
  | zero =>
    intro m m2 hfuel heq
    rw [mallocLoop] at heq
    injection heq with _ hm2
    constructor
    · omega
    · intro k hk1 hk2
      omega
  | succ fuel ih =>
    intro m m2 hfuel heq
    rw [mallocLoop] at heq
    by_cases hm : 0 < m
    · rw [if_pos hm] at heq
      cases halloc : alloc m with
      | some q =>
        rw [halloc] at heq
        exact absurd heq (by simp)
      | none =>
        rw [halloc] at heq
        obtain ⟨h1, h2⟩ := ih (m - 4) m2 (by omega) heq
        refine ⟨h1, ?_⟩
        intro k hk1 hk2 hk3
        by_cases hkm : k = m
        · rw [hkm]
          exact halloc
        · exact h2 k hk1 (by omega) (by omega)
    · rw [if_neg hm] at heq
      injection heq with _ hm2
      constructor
      · omega
      · intro k hk1 hk2
        omega

/-- A malloc oracle which can satisfy exactly the 4-byte request. -/
def allocAt4 : Int → Option Nat := fun k => if k = 4 then some 1000 else none

/-- Counterexample to claim C3 as stated: the requested size 2 ^ 31 is
positive and an allocation succeeds at a smallest decrement step
(allocAt4 4 = some 1000, and 2 ^ 31 - 4 is a multiple of the word
size), yet mallocLargestSize returns the null block and size 0: the
(int32_t) cast of 2 ^ 31 is negative, so the retry loop never even
tries an allocation. -/
theorem mallocLargestSize_counterexample :
    0 < 2 ^ 31 ∧ allocAt4 4 = some 1000 ∧
    mallocLargestSize allocAt4 (2 ^ 31) = (none, 0) := by
  refine ⟨by norm_num, by decide, by decide⟩

/-- Claim C3 as amended: for every positive requested size that stays
positive under the (int32_t) cast, i.e. below 2 ^ 31, mallocLargestSize
on success returns a non-null block with an actual size that is
positive, at most the requested size and below it by a multiple of the
word size, the returned size being exactly the size the oracle
satisfied; and it returns the null block with size 0 exactly when no
request of the decrement ladder (the sizes congruent to the request
mod 4, down to the smallest positive one) succeeds. -/
theorem mallocLargestSize_contract (alloc : Int → Option Nat) (s : Nat)
    (h1 : 0 < s) (h2 : s < 2 ^ 31) :
    (∀ p : Nat, (mallocLargestSize alloc s).1 = some p →
      0 < (mallocLargestSize alloc s).2 ∧
      (mallocLargestSize alloc s).2 ≤ s ∧
      (s - (mallocLargestSize alloc s).2) % 4 = 0 ∧
      alloc ((mallocLargestSize alloc s).2 : Int) = some p) ∧
    ((mallocLargestSize alloc s).1 = none →
      (mallocLargestSize alloc s).2 = 0 ∧
      ∀ k : Nat, 0 < k → k ≤ s → (s - k) % 4 = 0 → alloc (k : Int) = none) := by
  have hs : toInt32 s = (s : Int) := by
    rw [toInt32]
    have hlt : s % 2 ^ 32 = s := Nat.mod_eq_of_lt (by omega)
    rw [hlt, if_pos (by omega)]
  cases hr : mallocLoop alloc ((toInt32 s).toNat + 1) (toInt32 s) with
  | mk p1 m2 =>
    have hres : mallocLargestSize alloc s = (p1, (if m2 < 0 then (0 : Int) else m2).toNat) := by
      rw [mallocLargestSize]
      rw [hr]
    constructor
    · intro p hp
      rw [hres] at hp
      simp at hp
      have hsome : mallocLoop alloc ((toInt32 s).toNat + 1) (toInt32 s) = (some p, m2) := by
        rw [hr, hp]
      obtain ⟨hm1, hm2, hm3, hm4⟩ := mallocLoop_some alloc _ _ _ _ hsome
      rw [hs] at hm2 hm3
      have hclamp : (if m2 < 0 then (0 : Int) else m2).toNat = m2.toNat := by
        rw [if_neg (by omega)]
      rw [hres, hclamp]
      have hcast : (m2.toNat : Int) = m2 := Int.toNat_of_nonneg (by omega)
      refine ⟨by omega, by omega, by omega, ?_⟩
      rw [hcast]
      exact hm4
    · intro hp
      rw [hres] at hp
      simp at hp
      have hnone : mallocLoop alloc ((toInt32 s).toNat + 1) (toInt32 s) = (none, m2) := by
        rw [hr, hp]
      have hfuel : toInt32 s ≤ 4 * ((toInt32 s).toNat + 1) := by
        rw [hs]
        omega
      obtain ⟨hm1, hm2⟩ := mallocLoop_none alloc _ _ _ hfuel hnone
      rw [hs] at hm2
      constructor
      · rw [hres]
        have : (if m2 < 0 then (0 : Int) else m2).toNat = 0 := by
          by_cases hneg : m2 < 0
          · rw [if_pos hneg]
            rfl
          · rw [if_neg hneg]
            omega
        rw [this]
      · intro k hk1 hk2 hk3
        exact hm2 (k : Int) (by omega) (by omega) (by omega)

theorem mallocLargestSize_contract_witness :
    ((0 : Nat) < 12 ∧ (12 : Nat) < 2 ^ 31 ∧ (mallocLargestSize allocAt4 12).1 = some 1000) ∧
    (0 < (mallocLargestSize allocAt4 12).2 ∧
      (mallocLargestSize allocAt4 12).2 ≤ 12 ∧
      (12 - (mallocLargestSize allocAt4 12).2) % 4 = 0 ∧
      allocAt4 ((mallocLargestSize allocAt4 12).2 : Int) = some 1000) :=
  ⟨⟨by decide, by decide, by decide⟩,
    (mallocLargestSize_contract allocAt4 12 (by decide) (by decide)).1 1000 (by decide)⟩

-- ----------------------------------------------------------------
-- checkHeapSize (lines 134-185 of main.cpp)
-- ----------------------------------------------------------------

/-- State of the chaining while loop of checkHeapSize: the first
block seen as an array of pointer-sized slots (mem, word-indexed),
the slot cursor ppLaterMalloc as an index (idx), the running
laterMallocSizeBytes (subReq), the running totalHeapSizeBytes (total),
plus ghost logs: the chained pointers returned by mallocLargestSize in
order (allocs) and the slot indices written (writes). -/
structure ChainState where
  mem : Nat → Nat
  idx : Nat
  subReq : Nat
  total : Nat
  allocs : List Nat
  writes : List Nat

/-- The chaining while loop (lines 159-172).  res k models the result
of the mallocLargestSize call made at slot k: the pointer (0 = NULL)
and the size written back through laterMallocSizeBytes.  fuel is
bound - idx, so running out of fuel is exactly the cursor reaching the
first block's slot capacity; the loop otherwise continues only while
the slot under the cursor is non-null and the sub-request is positive,
and the cursor advances only on a successful allocation.

One loop body execution whose mallocLargestSize call succeeded
(lines 161-171): the slot gets the new pointer, the size is
accumulated, the sub-request resets to SYSTEM_RAM_SIZE_BYTES and the
cursor advances. -/
def chainSucc (res : Nat → Nat × Nat) (s : ChainState) : ChainState :=
  { mem := upd s.mem s.idx (res s.idx).1
    idx := s.idx + 1
    subReq := SYSTEM_RAM_SIZE_BYTES
    total := s.total + (res s.idx).2
    allocs := s.allocs ++ [(res s.idx).1]
    writes := s.writes ++ [s.idx] }

/-- One loop body execution whose mallocLargestSize call failed: the
slot gets NULL and the sub-request gets the written-back size (0);
the cursor stays, so the loop condition then fails on the null slot. -/
def chainFail (res : Nat → Nat × Nat) (s : ChainState) : ChainState :=
  { s with
      mem := upd s.mem s.idx (res s.idx).1
      subReq := (res s.idx).2
      writes := s.writes ++ [s.idx] }

/-- The chaining while loop itself. -/
def chainLoop (res : Nat → Nat × Nat) : Nat → ChainState → ChainState
  | 0, s => s
  | fuel + 1, s =>
    if s.mem s.idx ≠ 0 ∧ 0 < s.subReq then
      if (res s.idx).1 ≠ 0 then chainLoop res fuel (chainSucc res s)
      else chainFail res s
    else s

/-- The teardown while loop (lines 175-179): free the slot under the
cursor, step the cursor back, until it passes slot zero; returns the
arguments handed to free, in order. -/
def teardown (mem : Nat → Nat) : Nat → List Nat
  | 0 => [mem 0]
  | i + 1 => mem (i + 1) :: teardown mem i

/-- Result of checkHeapSize: the returned total, the pointers obtained
from mallocLargestSize in order (the first block first), the arguments
handed to free in order, and the final chain-loop state. -/
structure HeapResult where
  total : Nat
  allocs : List Nat
  frees : List Nat
  finalIdx : Nat
  writes : List Nat
  finalMem : Nat → Nat
  finalSubReq : Nat

/-- checkHeapSize of main.cpp.  first models the result of the first
mallocLargestSize call (pointer, with 0 = NULL, and size); res the
later calls, indexed by the slot the loop stores them into; mem0 the
initial contents of the first block; fault the read transform checkRam
uses on it.  The first block is checkRam-verified (line 148), then
used as the slot array; chained blocks are disjoint from it, so their
own checkRam runs do not touch the slots.  Teardown frees slots from
the final cursor down to slot zero and the first block last. -/
def checkHeapSize (first : Nat × Nat) (res : Nat → Nat × Nat) (mem0 : Nat → Nat)
    (fault : Nat → Nat → Nat) : HeapResult :=
  if first.1 = 0 then ⟨0, [], [], 0, [], mem0, 0⟩
  else
    let bound := first.2 / 4
    let mem1 := (checkRam first.1 first.2 mem0 fault).mem
    let s := chainLoop res bound
      ⟨mem1, 0, SYSTEM_RAM_SIZE_BYTES, first.2, [], []⟩
    ⟨s.total, first.1 :: s.allocs, teardown s.mem s.idx ++ [first.1],
      s.idx, s.writes, s.mem, s.subReq⟩

-- ----------------------------------------------------------------
-- Chain-loop lemmas
-- ----------------------------------------------------------------

theorem teardown_eq (mem : Nat → Nat) : ∀ i : Nat,
    teardown mem i = ((List.range (i + 1)).reverse).map mem := by
  intro i
  induction i with
  | zero => simp [teardown, List.range_succ]
  | succ i ih =>
    rw [teardown, ih]
    simp [List.range_succ]

theorem chainLoop_bound (res : Nat → Nat × Nat) : ∀ (fuel : Nat) (s : ChainState),
    (chainLoop res fuel s).idx ≤ s.idx + fuel ∧
    ∀ w ∈ (chainLoop res fuel s).writes, w ∈ s.writes ∨ w < s.idx + fuel := by
  intro fuel
  induction fuel with
  | zero =>
    intro s
    rw [chainLoop]
    exact ⟨Nat.le_add_right _ _, fun w hw => Or.inl hw⟩
  | succ fuel ih =>
    intro s
    rw [chainLoop]
    by_cases hc : s.mem s.idx ≠ 0 ∧ 0 < s.subReq
    · rw [if_pos hc]
      by_cases hr : (res s.idx).1 ≠ 0
      · rw [if_pos hr]
        obtain ⟨ih1, ih2⟩ := ih (chainSucc res s)
        have hidx : (chainSucc res s).idx = s.idx + 1 := rfl
        constructor
        · omega
        · intro w hw
          rcases ih2 w hw with hin | hlt
          · have hin2 : w ∈ s.writes ++ [s.idx] := hin
            rcases List.mem_append.mp hin2 with h3 | h3
            · exact Or.inl h3
            · have h4 : w = s.idx := by simpa using h3
              exact Or.inr (by omega)
          · exact Or.inr (by omega)
      · rw [if_neg hr]
        constructor
        · show s.idx ≤ s.idx + (fuel + 1)
          omega
        · intro w hw
          have hw2 : w ∈ s.writes ++ [s.idx] := hw
          rcases List.mem_append.mp hw2 with h3 | h3
          · exact Or.inl h3
          · have h4 : w = s.idx := by simpa using h3
            exact Or.inr (by omega)
    · rw [if_neg hc]
      exact ⟨Nat.le_add_right _ _, fun w hw => Or.inl hw⟩

theorem chainLoop_exit (res : Nat → Nat × Nat) : ∀ (fuel : Nat) (s : ChainState),
    (∀ j, s.idx ≤ j → j < s.idx + fuel → s.mem j ≠ 0) →
    0 < s.subReq →
    (chainLoop res fuel s).idx = s.idx + fuel ∨
    ((res (chainLoop res fuel s).idx).1 = 0 ∧
      (chainLoop res fuel s).mem (chainLoop res fuel s).idx = 0) := by
  intro fuel
  induction fuel with
  | zero =>
    intro s hmem hsub
    rw [chainLoop]
    exact Or.inl (by omega)
  | succ fuel ih =>
    intro s hmem hsub
    rw [chainLoop]
    rw [if_pos ⟨hmem s.idx (le_refl _) (by omega), hsub⟩]
    by_cases hr : (res s.idx).1 ≠ 0
    · rw [if_pos hr]
      have hidx : (chainSucc res s).idx = s.idx + 1 := rfl
      have hmem2 : ∀ j, (chainSucc res s).idx ≤ j → j < (chainSucc res s).idx + fuel →
          (chainSucc res s).mem j ≠ 0 := by
        intro j hj1 hj2
        rw [hidx] at hj1 hj2
        show upd s.mem s.idx (res s.idx).1 j ≠ 0
        rw [upd]
        rw [if_neg (show ¬j = s.idx by omega)]
        exact hmem j (by omega) (by omega)
      have hsub2 : 0 < (chainSucc res s).subReq := by
        show 0 < SYSTEM_RAM_SIZE_BYTES
        decide
      rcases ih (chainSucc res s) hmem2 hsub2 with h | h
      · exact Or.inl (by omega)
      · exact Or.inr h
    · rw [if_neg hr]
      push_neg at hr
      refine Or.inr ⟨hr, ?_⟩
      show upd s.mem s.idx (res s.idx).1 s.idx = 0
      simp [upd, hr]

theorem chainLoop_run (res : Nat → Nat × Nat) : ∀ (m fuel : Nat) (s : ChainState),
    m < fuel →
    (∀ k, k ≤ m → s.mem (s.idx + k) ≠ 0) →
    0 < s.subReq →
    (∀ k, k < m → (res (s.idx + k)).1 ≠ 0) →
    (res (s.idx + m)).1 = 0 →
    (chainLoop res fuel s).idx = s.idx + m ∧
    (chainLoop res fuel s).allocs =
      s.allocs ++ (List.range m).map (fun k => (res (s.idx + k)).1) ∧
    ∀ j, (chainLoop res fuel s).mem j =
      if j = s.idx + m then 0
      else if s.idx ≤ j ∧ j < s.idx + m then (res j).1
      else s.mem j := by
  intro m
  induction m with
  | zero =>
    intro fuel s hfuel hmem hsub hres hfail
    cases fuel with
    | zero => omega
    | succ fuel =>
      rw [chainLoop]
      have hm0 : s.mem s.idx ≠ 0 := by
        have := hmem 0 (le_refl 0)
        simpa using this
      rw [if_pos ⟨hm0, hsub⟩]
      have hr : ¬(res s.idx).1 ≠ 0 := by
        have h0 : (res (s.idx + 0)).1 = 0 := hfail
        simpa using h0
      rw [if_neg hr]
      push_neg at hr
      refine ⟨rfl, by simp [chainFail], ?_⟩
      intro j
      show upd s.mem s.idx (res s.idx).1 j = _
      rw [upd]
      by_cases hj : j = s.idx
      · rw [if_pos hj, if_pos (by omega)]
        exact hr
      · rw [if_neg hj, if_neg (by omega), if_neg (by omega)]
  | succ m ihm =>
    intro fuel s hfuel hmem hsub hres hfail
    cases fuel with
    | zero => omega
    | succ fuel =>
      rw [chainLoop]
      have hm0 : s.mem s.idx ≠ 0 := by
        have := hmem 0 (Nat.zero_le _)
        simpa using this
      rw [if_pos ⟨hm0, hsub⟩]
      have hr : (res s.idx).1 ≠ 0 := by
        have := hres 0 (by omega)
        simpa using this
      rw [if_pos hr]
      have hidx : (chainSucc res s).idx = s.idx + 1 := rfl
      have hmem2 : ∀ k, k ≤ m → (chainSucc res s).mem ((chainSucc res s).idx + k) ≠ 0 := by
        intro k hk
        rw [hidx]
        show upd s.mem s.idx (res s.idx).1 (s.idx + 1 + k) ≠ 0
        rw [upd, if_neg (show ¬s.idx + 1 + k = s.idx by omega)]
        have heq : s.idx + 1 + k = s.idx + (k + 1) := by omega
        rw [heq]
        exact hmem (k + 1) (by omega)
      have hsub2 : 0 < (chainSucc res s).subReq := by
        show 0 < SYSTEM_RAM_SIZE_BYTES
        decide
      have hres2 : ∀ k, k < m → (res ((chainSucc res s).idx + k)).1 ≠ 0 := by
        intro k hk
        rw [hidx]
        have heq : s.idx + 1 + k = s.idx + (k + 1) := by omega
        rw [heq]
        exact hres (k + 1) (by omega)
      have hfail2 : (res ((chainSucc res s).idx + m)).1 = 0 := by
        rw [hidx]
        have heq : s.idx + 1 + m = s.idx + (m + 1) := by omega
        rw [heq]
        exact hfail
      obtain ⟨ih1, ih2, ih3⟩ := ihm fuel (chainSucc res s) (by omega) hmem2 hsub2 hres2 hfail2
      rw [hidx] at ih1 ih2 ih3
      refine ⟨by omega, ?_, ?_⟩
      · rw [ih2]
        show (s.allocs ++ [(res s.idx).1]) ++
            (List.range m).map (fun k => (res (s.idx + 1 + k)).1) = _
        have hmap : (List.range m).map (fun k => (res (s.idx + 1 + k)).1) =
            (List.range m).map ((fun k => (res (s.idx + k)).1) ∘ Nat.succ) := by
          apply List.map_congr_left
          intro a ha
          show (res (s.idx + 1 + a)).1 = (res (s.idx + Nat.succ a)).1
          have heq : s.idx + 1 + a = s.idx + Nat.succ a := by omega
          rw [heq]
        rw [hmap, List.append_assoc, ← List.map_map, List.range_succ_eq_map]
        simp
      · intro j
        rw [ih3 j]
        show _ = if j = s.idx + (m + 1) then 0
          else if s.idx ≤ j ∧ j < s.idx + (m + 1) then (res j).1
          else s.mem j
        by_cases h1 : j = s.idx + 1 + m
        · rw [if_pos h1, if_pos (by omega)]
        · rw [if_neg h1]
          by_cases h2 : s.idx + 1 ≤ j ∧ j < s.idx + 1 + m
          · rw [if_pos h2, if_neg (by omega), if_pos (by omega)]
          · rw [if_neg h2]
            show upd s.mem s.idx (res s.idx).1 j = _
            rw [upd]
            by_cases h3 : j = s.idx
            · rw [if_pos h3, if_neg (by omega), if_pos (by omega), h3]
            · rw [if_neg h3, if_neg (by omega), if_neg (by omega)]

/-- The state the chaining loop starts from: the verified first block
as slot array, cursor at slot zero, sub-request primed with
SYSTEM_RAM_SIZE_BYTES (line 157), total primed with the first block
size (line 154). -/
def chainStart (first : Nat × Nat) (mem0 : Nat → Nat) (fault : Nat → Nat → Nat) : ChainState :=
  ⟨(checkRam first.1 first.2 mem0 fault).mem, 0, SYSTEM_RAM_SIZE_BYTES, first.2, [], []⟩

theorem checkHeapSize_pos (first : Nat × Nat) (res : Nat → Nat × Nat) (mem0 : Nat → Nat)
    (fault : Nat → Nat → Nat) (h : first.1 ≠ 0) :
    checkHeapSize first res mem0 fault =
      ⟨(chainLoop res (first.2 / 4) (chainStart first mem0 fault)).total,
       first.1 :: (chainLoop res (first.2 / 4) (chainStart first mem0 fault)).allocs,
       teardown (chainLoop res (first.2 / 4) (chainStart first mem0 fault)).mem
         (chainLoop res (first.2 / 4) (chainStart first mem0 fault)).idx ++ [first.1],
       (chainLoop res (first.2 / 4) (chainStart first mem0 fault)).idx,
       (chainLoop res (first.2 / 4) (chainStart first mem0 fault)).writes,
       (chainLoop res (first.2 / 4) (chainStart first mem0 fault)).mem,
       (chainLoop res (first.2 / 4) (chainStart first mem0 fault)).subReq⟩ := by
  unfold checkHeapSize
  rw [if_neg h]
  rfl

/-- Claim C5: in every execution of checkHeapSize the slot cursor
never exceeds first block size / pointer size, and every slot write of
the chaining loop happens at an index strictly below that bound (the
teardown walk frees but writes no slot, so the invariant covers the
whole execution). -/
theorem checkHeapSize_slot_bound (first : Nat × Nat) (res : Nat → Nat × Nat)
    (mem0 : Nat → Nat) (fault : Nat → Nat → Nat) :
    (checkHeapSize first res mem0 fault).finalIdx ≤ first.2 / 4 ∧
    ∀ w ∈ (checkHeapSize first res mem0 fault).writes, w < first.2 / 4 := by
  by_cases h : first.1 = 0
  · unfold checkHeapSize
    rw [if_pos h]
    exact ⟨Nat.zero_le _, by simp⟩
  · rw [checkHeapSize_pos _ _ _ _ h]
    obtain ⟨h1, h2⟩ := chainLoop_bound res (first.2 / 4) (chainStart first mem0 fault)
    have h1a : (chainLoop res (first.2 / 4) (chainStart first mem0 fault)).idx ≤
        0 + first.2 / 4 := h1
    constructor
    · show (chainLoop res (first.2 / 4) (chainStart first mem0 fault)).idx ≤ first.2 / 4
      omega
    · intro w hw
      have hw2 : w ∈ (chainLoop res (first.2 / 4) (chainStart first mem0 fault)).writes := hw
      rcases h2 w hw2 with hin | hlt
      · have hin2 : w ∈ ([] : List Nat) := hin
        simp at hin2
      · have hlt2 : w < 0 + first.2 / 4 := hlt
        omega

/-- Claim C10: after checkRam has run over the first block every word
of it holds the complement of a single-bit walking pattern, which is
never zero; consequently the chain-loop guard on the slot under the
cursor never ends the chain because of RAM-test residue: the loop ends
only with the cursor at the slot bound or at a slot holding the NULL
written by a failed allocation (the sub-request, reset to
SYSTEM_RAM_SIZE_BYTES after every success, never reaches zero first). -/
theorem checkHeapSize_residue_no_early_exit (first : Nat × Nat) (res : Nat → Nat × Nat)
    (mem0 : Nat → Nat) (fault : Nat → Nat → Nat) (h : first.1 ≠ 0) :
    (∀ j, j < first.2 / 4 →
      (checkRam first.1 first.2 mem0 fault).mem j = compl32 (2 ^ (j % 32)) ∧
      compl32 (2 ^ (j % 32)) ≠ 0) ∧
    ((checkHeapSize first res mem0 fault).finalIdx = first.2 / 4 ∨
      ((res (checkHeapSize first res mem0 fault).finalIdx).1 = 0 ∧
        (checkHeapSize first res mem0 fault).finalMem
          (checkHeapSize first res mem0 fault).finalIdx = 0)) := by
  have hres : ∀ j, j < first.2 / 4 →
      (checkRam first.1 first.2 mem0 fault).mem j = compl32 (valueAt j) := by
    intro j hj
    rw [checkRam_mem _ _ _ _ h, if_pos hj]
  constructor
  · intro j hj
    constructor
    · rw [hres j hj, valueAt_eq]
    · rw [← valueAt_eq]
      exact compl32_valueAt_ne_zero j
  · rw [checkHeapSize_pos _ _ _ _ h]
    have hidx : (chainStart first mem0 fault).idx = 0 := rfl
    have hmem : ∀ j, (chainStart first mem0 fault).idx ≤ j →
        j < (chainStart first mem0 fault).idx + first.2 / 4 →
        (chainStart first mem0 fault).mem j ≠ 0 := by
      intro j hj1 hj2
      show (checkRam first.1 first.2 mem0 fault).mem j ≠ 0
      rw [hres j (by omega)]
      exact compl32_valueAt_ne_zero j
    have hsub : 0 < (chainStart first mem0 fault).subReq := by
      show 0 < SYSTEM_RAM_SIZE_BYTES
      decide
    rcases chainLoop_exit res (first.2 / 4) (chainStart first mem0 fault) hmem hsub with hl | hr
    · left
      show (chainLoop res (first.2 / 4) (chainStart first mem0 fault)).idx = first.2 / 4
      omega
    · right
      exact hr

theorem checkHeapSize_residue_witness :
    (8 : Nat) ≠ 0 ∧
    ((∀ j, j < 16 / 4 →
      (checkRam 8 16 (fun _ => 0) (fun _ v => v)).mem j = compl32 (2 ^ (j % 32)) ∧
      compl32 (2 ^ (j % 32)) ≠ 0) ∧
    ((checkHeapSize (8, 16) (fun _ => (0, 0)) (fun _ => 0) (fun _ v => v)).finalIdx = 16 / 4 ∨
      (((0, 0) : Nat × Nat).1 = 0 ∧
        (checkHeapSize (8, 16) (fun _ => (0, 0)) (fun _ => 0) (fun _ v => v)).finalMem
          (checkHeapSize (8, 16) (fun _ => (0, 0)) (fun _ => 0) (fun _ v => v)).finalIdx = 0))) :=
  ⟨by decide,
    checkHeapSize_residue_no_early_exit (8, 16) (fun _ => (0, 0)) (fun _ => 0) (fun _ v => v)
      (by decide)⟩

/-- Claim C4: whenever checkHeapSize allocates a first block, the
teardown walks the slot array backward from the final cursor down to
slot zero and frees the first block last; and in a run whose chaining
loop stored m successful allocations and then a failed one, the free
calls are exactly the NULL left in the failing slot, then the chained
blocks in reverse allocation order, then the first block. -/
theorem checkHeapSize_teardown_reverse (first : Nat × Nat) (res : Nat → Nat × Nat)
    (mem0 : Nat → Nat) (fault : Nat → Nat → Nat) (h : first.1 ≠ 0) :
    (checkHeapSize first res mem0 fault).frees =
      ((List.range ((checkHeapSize first res mem0 fault).finalIdx + 1)).reverse).map
        (checkHeapSize first res mem0 fault).finalMem ++ [first.1] ∧
    ∀ m, m < first.2 / 4 → (∀ k, k < m → (res k).1 ≠ 0) → (res m).1 = 0 →
      (checkHeapSize first res mem0 fault).allocs =
        first.1 :: (List.range m).map (fun k => (res k).1) ∧
      (checkHeapSize first res mem0 fault).frees =
        0 :: ((List.range m).map (fun k => (res k).1)).reverse ++ [first.1] := by
  constructor
  · rw [checkHeapSize_pos _ _ _ _ h]
    show teardown (chainLoop res (first.2 / 4) (chainStart first mem0 fault)).mem
        (chainLoop res (first.2 / 4) (chainStart first mem0 fault)).idx ++ [first.1] = _
    rw [teardown_eq]
  · intro m hm hsucc hfailm
    have hidx : (chainStart first mem0 fault).idx = 0 := rfl
    have hmem : ∀ k, k ≤ m → (chainStart first mem0 fault).mem
        ((chainStart first mem0 fault).idx + k) ≠ 0 := by
      intro k hk
      show (checkRam first.1 first.2 mem0 fault).mem (0 + k) ≠ 0
      rw [checkRam_mem _ _ _ _ h, if_pos (by omega)]
      exact compl32_valueAt_ne_zero (0 + k)
    have hsub : 0 < (chainStart first mem0 fault).subReq := by
      show 0 < SYSTEM_RAM_SIZE_BYTES
      decide
    have hres2 : ∀ k, k < m → (res ((chainStart first mem0 fault).idx + k)).1 ≠ 0 := by
      intro k hk
      rw [hidx, Nat.zero_add]
      exact hsucc k hk
    have hfail2 : (res ((chainStart first mem0 fault).idx + m)).1 = 0 := by
      rw [hidx, Nat.zero_add]
      exact hfailm
    obtain ⟨run1, run2, run3⟩ :=
      chainLoop_run res m (first.2 / 4) (chainStart first mem0 fault) hm hmem hsub hres2 hfail2
    have hnil : (chainStart first mem0 fault).allocs = [] := rfl
    simp only [hidx, hnil, Nat.zero_add, List.nil_append] at run1 run2 run3
    constructor
    · rw [checkHeapSize_pos _ _ _ _ h]
      show first.1 :: (chainLoop res (first.2 / 4) (chainStart first mem0 fault)).allocs = _
      rw [run2]
    · rw [checkHeapSize_pos _ _ _ _ h]
      show teardown (chainLoop res (first.2 / 4) (chainStart first mem0 fault)).mem
          (chainLoop res (first.2 / 4) (chainStart first mem0 fault)).idx ++ [first.1] = _
      rw [run1, teardown_eq, List.range_succ, List.reverse_append]
      have hvm : (chainLoop res (first.2 / 4) (chainStart first mem0 fault)).mem m = 0 := by
        rw [run3 m, if_pos rfl]
      have hmap : ((List.range m).reverse).map
          (chainLoop res (first.2 / 4) (chainStart first mem0 fault)).mem =
          ((List.range m).map (fun k => (res k).1)).reverse := by
        rw [← List.map_reverse]
        apply List.map_congr_left
        intro a ha
        have ham : a < m := by
          have : a ∈ List.range m := List.mem_reverse.mp ha
          exact List.mem_range.mp this
        rw [run3 a, if_neg (by omega), if_pos ⟨Nat.zero_le a, ham⟩]
      simp [hvm, hmap]

/-- A later-allocation oracle for a concrete run: two successful
chained allocations, then exhaustion. -/
def chainResW : Nat → Nat × Nat := fun k => if k < 2 then (100 + k, 256) else (0, 0)

theorem checkHeapSize_teardown_witness :
    ((50 : Nat) ≠ 0 ∧ 2 < 64 / 4 ∧ (∀ k, k < 2 → (chainResW k).1 ≠ 0) ∧
      (chainResW 2).1 = 0) ∧
    ((checkHeapSize (50, 64) chainResW (fun _ => 0) (fun _ v => v)).allocs =
        50 :: (List.range 2).map (fun k => (chainResW k).1) ∧
      (checkHeapSize (50, 64) chainResW (fun _ => 0) (fun _ v => v)).frees =
        0 :: ((List.range 2).map (fun k => (chainResW k).1)).reverse ++ [50]) :=
  ⟨⟨by decide, by decide, by decide, by decide⟩,
    (checkHeapSize_teardown_reverse (50, 64) chainResW (fun _ => 0) (fun _ v => v)
        (by decide)).2 2 (by decide) (by decide) (by decide)⟩
